import Mathlib

/-!
# Verification of the `vtt-translator` pipeline

Shallow embedding of `src/vtt_multilang_translator.py` (VTT parser, serializer,
translation client payload/response handling, per-language orchestration loop)
and of `verify_bearer` from `src/server.py`, together with theorems settling the
spec claims about them.

Python string primitives (`str.splitlines`, `str.strip`, `str.isdigit`,
`str.startswith`, `str.split(" ", 1)`) are modelled character-by-character.
The whitespace/digit classes are modelled on their ASCII fragment (the inputs
relevant to the claims are ASCII; Python additionally treats some Unicode
characters as whitespace/digits, which no claim depends on).
-/

namespace VttTranslator

/-- ASCII fragment of the character class stripped by Python `str.strip()`. -/
def isPySpace (c : Char) : Bool :=
  c = ' ' || c = '\t' || c = '\n' || c = '\r' || c = '\x0b' || c = '\x0c'

/-- Line-boundary characters of Python `str.splitlines`. -/
def isLineBreak (c : Char) : Bool :=
  c = '\n' || c = '\r' || c = '\x0b' || c = '\x0c' ||
  c = (Char.ofNat 0x1c) || c = (Char.ofNat 0x1d) || c = (Char.ofNat 0x1e) ||
  c = (Char.ofNat 0x85) || c = (Char.ofNat 0x2028) || c = (Char.ofNat 0x2029)

/-- Worker for `splitlines`: `acc` holds the current (reversed) line.
A `"\r\n"` pair counts as a single boundary, as in Python. -/
def splitlinesAux : List Char → List Char → List String
  | [], acc => if acc.isEmpty then [] else [String.mk acc.reverse]
  | [c], acc =>
    if isLineBreak c then [String.mk acc.reverse]
    else [String.mk (c :: acc).reverse]
  | c :: d :: rest, acc =>
    if isLineBreak c then
      if c = '\r' ∧ d = '\n' then String.mk acc.reverse :: splitlinesAux rest []
      else String.mk acc.reverse :: splitlinesAux (d :: rest) []
    else splitlinesAux (d :: rest) (c :: acc)

/-- Python `str.splitlines()`. A trailing line boundary does not produce an
extra empty final line. -/
def splitlines (s : String) : List String := splitlinesAux s.data []

/-- Python `str.strip()` (ASCII whitespace fragment). -/
def pyStrip (s : String) : String :=
  String.mk (((s.data.dropWhile isPySpace).reverse.dropWhile isPySpace).reverse)

/-- Python `str.isdigit()` (ASCII fragment): nonempty and all digits. -/
def pyIsDigit (s : String) : Bool :=
  !s.data.isEmpty && s.data.all Char.isDigit

/-- Python `str.startswith(p)`. -/
def pyStartsWith (s p : String) : Bool := p.data.isPrefixOf s.data

/-- Consume exactly `n` digit characters (`\d{n}` of `TIMECODE_RE`). -/
def munchDigits : Nat → List Char → Option (List Char)
  | 0, cs => some cs
  | _ + 1, [] => none
  | n + 1, c :: cs => if c.isDigit then munchDigits n cs else none

/-- Consume one expected literal character. -/
def expectChar (ch : Char) : List Char → Option (List Char)
  | [] => none
  | c :: cs => if c = ch then some cs else none

/-- Consume `\s*` (ASCII whitespace fragment of the regex class). -/
def dropPySpaces (cs : List Char) : List Char := cs.dropWhile isPySpace

/-- Consume one `\d{2}:\d{2}:\d{2}\.\d{3}` timestamp of `TIMECODE_RE`. -/
def matchTimestamp (cs : List Char) : Option (List Char) :=
  (munchDigits 2 cs).bind fun cs =>
  (expectChar ':' cs).bind fun cs =>
  (munchDigits 2 cs).bind fun cs =>
  (expectChar ':' cs).bind fun cs =>
  (munchDigits 2 cs).bind fun cs =>
  (expectChar '.' cs).bind fun cs =>
  munchDigits 3 cs

/-- `TIMECODE_RE.match(line)` as a Boolean: the line starts with
`timestamp \s* --> \s* timestamp`, followed by anything (`(?P<rest>.*)$`;
lines produced by `splitlines` contain no newline, so the trailing `.*$`
imposes no constraint). -/
def matchesTimecode (s : String) : Bool :=
  ((matchTimestamp s.data).bind fun cs =>
   (expectChar '-' (dropPySpaces cs)).bind fun cs =>
   (expectChar '-' cs).bind fun cs =>
   (expectChar '>' cs).bind fun cs =>
   matchTimestamp (dropPySpaces cs)).isSome

/-- The `Cue` dataclass: zero-based index, verbatim timecode line, text lines. -/
structure Cue where
  idx : Nat
  timecode : String
  text_lines : List String
deriving DecidableEq

deriving instance DecidableEq for Except

/-- Header skip: `while i < len(lines) and lines[i].strip() != "": i += 1` —
drop lines up to (not including) the first blank line. -/
def skipToBlank : List String → List String
  | [] => []
  | l :: rest => if pyStrip l = "" then l :: rest else skipToBlank rest

/-- `if i < len(lines) and lines[i].strip() == "": i += 1` —
drop one leading blank line if present. -/
def skipBlankOne : List String → List String
  | [] => []
  | l :: rest => if pyStrip l = "" then rest else l :: rest

/-- The text-collecting loop of `parse_vtt`: take the maximal prefix of
non-blank lines, and return it together with the remaining lines. -/
def collectText : List String → List String × List String
  | [] => ([], [])
  | l :: rest =>
    if pyStrip l = "" then ([], l :: rest)
    else
      let pr := collectText rest
      (l :: pr.1, pr.2)

/-- Fueled form of the cue loop of `parse_vtt`. Every iteration of the Python
loop consumes at least one line, so fuel `lines.length` never runs out
(`parseCuesF_fuel_irrelevant`). Per iteration: skip one numeric index line if
present, then require a timecode line (otherwise skip one line and continue),
then collect text lines up to a blank line, skip that blank line, emit the cue
with the next sequential index. -/
def parseCuesF : Nat → List String → Nat → List Cue
  | 0, _, _ => []
  | _ + 1, [], _ => []
  | fuel + 1, l :: rest, idx =>
    match (if pyIsDigit (pyStrip l) then rest else l :: rest) with
    | [] => []
    | l2 :: rest2 =>
      if matchesTimecode l2 then
        let pr := collectText rest2
        Cue.mk idx l2 pr.1 :: parseCuesF fuel (skipBlankOne pr.2) (idx + 1)
      else parseCuesF fuel rest2 idx

/-- The cue loop of `parse_vtt`, starting from line list `ls` and index `idx`. -/
def parseCues (ls : List String) (idx : Nat) : List Cue :=
  parseCuesF ls.length ls idx

/-- `parse_vtt`: the file content (reading the file is I/O and is external to
the model) is split into lines; the first line must start with `WEBVTT`
(otherwise `ValueError("Not a VTT file")`); header lines are skipped up to and
including the first blank line; then the cue loop runs. The returned header is
the constant `"WEBVTT"`. -/
def parse_vtt (content : String) : Except String (String × List Cue) :=
  match splitlines content with
  | [] => .error "Not a VTT file"
  | l0 :: rest =>
    if pyStartsWith l0 "WEBVTT" then
      .ok ("WEBVTT", parseCues (skipBlankOne (skipToBlank rest)) 0)
    else .error "Not a VTT file"

/-- Python `dict` built from a sequence of insertions (later insertions
override earlier ones): `d.get(k)` returns the value of the last binding. -/
def dictGet (d : List (Int × String)) (k : Int) : Option String :=
  (d.reverse.find? (fun p => p.1 == k)).map Prod.snd

/-- Python `"\n".join(lines)`. -/
def joinNl : List String → String
  | [] => ""
  | [t] => t
  | t :: t2 :: ts => t ++ "\n" ++ joinNl (t2 :: ts)

/-- The text written for one cue:
`translations.get(c.idx, "\n".join(c.text_lines))`. -/
def cueText (tr : List (Int × String)) (c : Cue) : String :=
  (dictGet tr (Int.ofNat c.idx)).getD (joinNl c.text_lines)

/-- The chunk `write_vtt` writes for one cue: regenerated 1-based number,
verbatim timecode, text, then a blank line. -/
def cueBlock (tr : List (Int × String)) (c : Cue) : String :=
  Nat.repr (c.idx + 1) ++ "\n" ++ c.timecode ++ "\n" ++ cueText tr c ++ "\n\n"

/-- The concatenation of the cue chunks written by `write_vtt`'s loop. -/
def writeBlocks (tr : List (Int × String)) : List Cue → String
  | [] => ""
  | c :: cs => cueBlock tr c ++ writeBlocks tr cs

/-- `write_vtt`: the full text written to the output file (writing is I/O;
the model returns the written string): `header + "\n\n"` followed by the cue
chunks in order. -/
def write_vtt (header : String) (cues : List Cue) (tr : List (Int × String)) :
    String :=
  header ++ "\n\n" ++ writeBlocks tr cues

/-- Observable outcome of one remote completion call: either the response
decodes (`json.loads` plus `data["items"]` extraction, with `int(item["id"])`
applied) into an items list, or decoding raises. The OpenAI client and the
JSON decoder are external collaborators; the model captures their outcome. -/
inductive RemoteResp where
  | items (its : List (Int × String))
  | malformed
deriving DecidableEq

/-- The request payload of `translate_batch`:
`[{"id": c.idx, "text": "\n".join(c.text_lines)} for c in batch]`. -/
def batchPayload (batch : List Cue) : List (Int × String) :=
  batch.map (fun c => (Int.ofNat c.idx, joinNl c.text_lines))

/-- `translate_batch` for a given remote oracle: send the payload, decode the
response into an `{id: text}` mapping; a malformed response raises (modelled
as `Except.error`). -/
def translate_batch (oracle : List (Int × String) → String → RemoteResp)
    (batch : List Cue) (lang : String) : Except String (List (Int × String)) :=
  match oracle (batchPayload batch) lang with
  | .items its => .ok its
  | .malformed => .error "TranslationError"

/-- The slice starts of `range(0, len(cues), 50)` in `main`. -/
def batchStarts (n : Nat) : List Nat :=
  (List.range ((n + 49) / 50)).map (fun k => 50 * k)

/-- The batches `cues[i:i+50]` taken by `main`'s inner loop. -/
def batches (cues : List Cue) : List (List Cue) :=
  (batchStarts cues.length).map (fun i => (cues.drop i).take 50)

/-- The per-language loop body of `main`: start from `translations = {}`, and
for each batch `translations.update(translate_batch(...))`; an exception in
any batch aborts (propagates out of `main`). -/
def runLang (oracle : List (Int × String) → String → RemoteResp)
    (cues : List Cue) (lang : String) : Except String (List (Int × String)) :=
  (batches cues).foldlM
    (fun tr b => (translate_batch oracle b lang).map (fun m => tr ++ m)) []

/-- The language loop of `main`: the association list of `(lang, file text)`
pairs written, in order. An uncaught exception in one language's batches stops
the whole loop: that language and all later ones write nothing. -/
def run_main (oracle : List (Int × String) → String → RemoteResp)
    (header : String) (cues : List Cue) : List String → List (String × String)
  | [] => []
  | lang :: rest =>
    match runLang oracle cues lang with
    | .ok tr => (lang, write_vtt header cues tr) :: run_main oracle header cues rest
    | .error _ => []

/-- Outcome of `verify_bearer`: normal return, or `HTTPException(code)`. -/
inductive AuthResult where
  | ok
  | err (code : Nat)
deriving DecidableEq

/-- Python `s.split(" ", 1)[1]`: everything after the first space. (Python
raises `IndexError` when there is no space; `verify_bearer` only reaches this
after `startswith("Bearer ")`, which guarantees a space, so the `[]` default
is unreachable there.) -/
def afterFirstSpaceAux : List Char → List Char
  | [] => []
  | c :: cs => if c = ' ' then cs else afterFirstSpaceAux cs

/-- String form of `afterFirstSpaceAux`. -/
def afterFirstSpace (s : String) : String := String.mk (afterFirstSpaceAux s.data)

/-- `verify_bearer` from `src/server.py`. `auth = none` models a missing
`Authorization` header; Python's `not auth_header` is true for both `None`
and the empty string. -/
def verify_bearer (apiBearer : String) (auth : Option String) : AuthResult :=
  if apiBearer = "" then .ok
  else match auth with
    | none => .err 401
    | some s =>
      if s = "" || !pyStartsWith s "Bearer " then .err 401
      else if pyStrip (afterFirstSpace s) ≠ apiBearer then .err 403
      else .ok

/-- Every character of `s` is outside the `splitlines` boundary class. -/
def lineBreakFree (s : String) : Bool := s.data.all (fun c => !isLineBreak c)

/-- No two adjacent empty lines (used to state "exactly one blank line
between consecutive cues"). -/
def noAdjacentBlanks : List String → Bool
  | [] => true
  | [_] => true
  | a :: b :: rest => !(a = "" && b = "") && noAdjacentBlanks (b :: rest)

/-- Remove numeric cue-label lines (used to state "differs only in the
synthetic cue numbering"). -/
def stripNumberLines (ls : List String) : List String :=
  ls.filter (fun l => !pyIsDigit (pyStrip l))

/-- `n` one-line cues with sequential indices (concrete test data for the
batching example). -/
def mkCues (n : Nat) : List Cue :=
  (List.range n).map (fun k => Cue.mk k "00:00:00.000 --> 00:00:02.000" ["x"])

/-! ## Character-class and decimal-numeral lemmas -/

theorem isPySpace_eq_false_of_isDigit {c : Char} (h : c.isDigit = true) :
    isPySpace c = false := by
  unfold isPySpace
  rcases eq_or_ne c ' ' with rfl | h1
  · exact absurd h (by decide)
  rcases eq_or_ne c '\t' with rfl | h2
  · exact absurd h (by decide)
  rcases eq_or_ne c '\n' with rfl | h3
  · exact absurd h (by decide)
  rcases eq_or_ne c '\r' with rfl | h4
  · exact absurd h (by decide)
  rcases eq_or_ne c '\x0b' with rfl | h5
  · exact absurd h (by decide)
  rcases eq_or_ne c '\x0c' with rfl | h6
  · exact absurd h (by decide)
  simp [h1, h2, h3, h4, h5, h6]

theorem isLineBreak_eq_false_of_isDigit {c : Char} (h : c.isDigit = true) :
    isLineBreak c = false := by
  unfold isLineBreak
  rcases eq_or_ne c '\n' with rfl | h1
  · exact absurd h (by decide)
  rcases eq_or_ne c '\r' with rfl | h2
  · exact absurd h (by decide)
  rcases eq_or_ne c '\x0b' with rfl | h3
  · exact absurd h (by decide)
  rcases eq_or_ne c '\x0c' with rfl | h4
  · exact absurd h (by decide)
  rcases eq_or_ne c (Char.ofNat 0x1c) with rfl | h5
  · exact absurd h (by decide)
  rcases eq_or_ne c (Char.ofNat 0x1d) with rfl | h6
  · exact absurd h (by decide)
  rcases eq_or_ne c (Char.ofNat 0x1e) with rfl | h7
  · exact absurd h (by decide)
  rcases eq_or_ne c (Char.ofNat 0x85) with rfl | h8
  · exact absurd h (by decide)
  rcases eq_or_ne c (Char.ofNat 0x2028) with rfl | h9
  · exact absurd h (by decide)
  rcases eq_or_ne c (Char.ofNat 0x2029) with rfl | h10
  · exact absurd h (by decide)
  simp [h1, h2, h3, h4, h5, h6, h7, h8, h9, h10]

theorem digitChar_isDigit {m : Nat} (h : m < 10) : (Nat.digitChar m).isDigit = true := by
  interval_cases m <;> decide

theorem toDigitsCore_all_digit :
    ∀ (fuel n : Nat) (ds : List Char), (∀ c ∈ ds, c.isDigit = true) →
      ∀ c ∈ Nat.toDigitsCore 10 fuel n ds, c.isDigit = true := by
  intro fuel
  induction fuel with
  | zero => intro n ds h c hc; exact h c hc
  | succ fuel ih =>
    intro n ds h c hc
    rw [Nat.toDigitsCore] at hc
    by_cases h0 : n / 10 = 0
    · simp only [h0, if_true] at hc
      rcases List.mem_cons.mp hc with rfl | hc'
      · exact digitChar_isDigit (Nat.mod_lt _ (by norm_num))
      · exact h c hc'
    · simp only [h0, if_false] at hc
      refine ih (n / 10) _ ?_ c hc
      intro d hd
      rcases List.mem_cons.mp hd with rfl | hd'
      · exact digitChar_isDigit (Nat.mod_lt _ (by norm_num))
      · exact h d hd'

theorem toDigitsCore_ne_nil :
    ∀ (fuel n : Nat) (ds : List Char), fuel ≠ 0 ∨ ds ≠ [] →
      Nat.toDigitsCore 10 fuel n ds ≠ [] := by
  intro fuel
  induction fuel with
  | zero =>
    intro n ds h
    rcases h with h | h
    · exact absurd rfl h
    · exact h
  | succ fuel ih =>
    intro n ds _
    rw [Nat.toDigitsCore]
    by_cases h0 : n / 10 = 0
    · simp [h0]
    · simp only [h0, if_false]
      exact ih (n / 10) _ (Or.inr (List.cons_ne_nil _ _))

theorem natRepr_all_digit (n : Nat) : ∀ c ∈ (Nat.repr n).data, c.isDigit = true := by
  intro c hc
  exact toDigitsCore_all_digit (n + 1) n [] (by intro d hd; cases hd) c hc

theorem natRepr_ne_nil (n : Nat) : (Nat.repr n).data ≠ [] :=
  toDigitsCore_ne_nil (n + 1) n [] (Or.inl (Nat.succ_ne_zero n))

theorem dropWhile_eq_self_of_all {p : Char → Bool} {l : List Char}
    (h : ∀ c ∈ l, p c = false) : l.dropWhile p = l := by
  cases l with
  | nil => rfl
  | cons c cs => simp [List.dropWhile_cons, h c (List.mem_cons_self c cs)]

theorem pyStrip_eq_self {s : String} (h : ∀ c ∈ s.data, isPySpace c = false) :
    pyStrip s = s := by
  unfold pyStrip
  rw [dropWhile_eq_self_of_all h,
    dropWhile_eq_self_of_all (by intro c hc; exact h c (List.mem_reverse.mp hc)),
    List.reverse_reverse]

theorem pyStrip_natRepr (n : Nat) : pyStrip (Nat.repr n) = Nat.repr n :=
  pyStrip_eq_self (fun c hc => isPySpace_eq_false_of_isDigit (natRepr_all_digit n c hc))

theorem pyIsDigit_natRepr (n : Nat) : pyIsDigit (Nat.repr n) = true := by
  unfold pyIsDigit
  rw [Bool.and_eq_true]
  constructor
  · simpa [List.isEmpty_iff] using natRepr_ne_nil n
  · rw [List.all_eq_true]
    intro c hc
    exact natRepr_all_digit n c hc

theorem pyIsDigit_pyStrip_natRepr (n : Nat) : pyIsDigit (pyStrip (Nat.repr n)) = true := by
  rw [pyStrip_natRepr]; exact pyIsDigit_natRepr n

theorem lineBreakFree_natRepr (n : Nat) : lineBreakFree (Nat.repr n) = true := by
  unfold lineBreakFree
  rw [List.all_eq_true]
  intro c hc
  simp [isLineBreak_eq_false_of_isDigit (natRepr_all_digit n c hc)]

/-! ## Timecode-matcher lemmas -/

theorem matchTimestamp_none_of_digits {cs : List Char}
    (h : ∀ c ∈ cs, c.isDigit = true) : matchTimestamp cs = none := by
  match cs with
  | [] => rfl
  | [c] =>
    simp [matchTimestamp, munchDigits, h c (by simp)]
  | c1 :: c2 :: rest =>
    have h1 := h c1 (by simp)
    have h2 := h c2 (by simp)
    cases rest with
    | nil => simp [matchTimestamp, munchDigits, h1, h2, expectChar]
    | cons c3 rest2 =>
      have h3 := h c3 (by simp)
      have hc3 : ¬(c3 = ':') := by
        rintro rfl; exact absurd h3 (by decide)
      simp [matchTimestamp, munchDigits, h1, h2, expectChar, hc3]

theorem matchesTimecode_natRepr (n : Nat) : matchesTimecode (Nat.repr n) = false := by
  unfold matchesTimecode
  rw [matchTimestamp_none_of_digits (natRepr_all_digit n)]
  rfl

theorem munchDigits_two {cs cs' : List Char} (h : munchDigits 2 cs = some cs') :
    ∃ a b, cs = a :: b :: cs' ∧ a.isDigit = true ∧ b.isDigit = true := by
  match cs with
  | [] => simp [munchDigits] at h
  | [a] =>
    by_cases ha : a.isDigit <;> simp [munchDigits, ha] at h
  | a :: b :: rest =>
    by_cases ha : a.isDigit
    · by_cases hb : b.isDigit
      · refine ⟨a, b, ?_, ha, hb⟩
        simp [munchDigits, ha, hb] at h
        simp [h]
      · simp [munchDigits, ha, hb] at h
    · simp [munchDigits, ha] at h

theorem expectChar_eq {ch : Char} {cs cs' : List Char} (h : expectChar ch cs = some cs') :
    cs = ch :: cs' := by
  match cs with
  | [] => simp [expectChar] at h
  | c :: rest =>
    by_cases hc : c = ch
    · subst hc
      simp [expectChar] at h
      simp [h]
    · simp [expectChar, hc] at h

theorem matchesTimecode_data {tc : String} (h : matchesTimecode tc = true) :
    ∃ a b rest, tc.data = a :: b :: ':' :: rest ∧ a.isDigit = true ∧ b.isDigit = true := by
  unfold matchesTimecode at h
  rw [Option.isSome_iff_exists] at h
  obtain ⟨u, hu⟩ := h
  rw [Option.bind_eq_some] at hu
  obtain ⟨cs1, hcs1, -⟩ := hu
  unfold matchTimestamp at hcs1
  rw [Option.bind_eq_some] at hcs1
  obtain ⟨cs2, hcs2, hrest⟩ := hcs1
  rw [Option.bind_eq_some] at hrest
  obtain ⟨cs3, hcs3, -⟩ := hrest
  obtain ⟨a, b, hdata, ha, hb⟩ := munchDigits_two hcs2
  exact ⟨a, b, cs3, by rw [hdata, expectChar_eq hcs3], ha, hb⟩

theorem mem_dropWhile_of_not {p : Char → Bool} {c : Char} {l : List Char}
    (hc : c ∈ l) (hp : p c = false) : c ∈ l.dropWhile p := by
  induction l with
  | nil => cases hc
  | cons x xs ih =>
    rw [List.dropWhile_cons]
    by_cases hx : p x
    · rcases List.mem_cons.mp hc with rfl | hc'
      · exact absurd hx (by simp [hp])
      · simp only [hx, if_true]
        exact ih hc'
    · simp only [hx, if_false]
      exact hc

theorem mem_pyStrip_of_not_space {s : String} {c : Char}
    (hc : c ∈ s.data) (hp : isPySpace c = false) : c ∈ (pyStrip s).data := by
  unfold pyStrip
  have h1 : c ∈ s.data.dropWhile isPySpace := mem_dropWhile_of_not hc hp
  have h2 : c ∈ (s.data.dropWhile isPySpace).reverse := List.mem_reverse.mpr h1
  have h3 : c ∈ (s.data.dropWhile isPySpace).reverse.dropWhile isPySpace :=
    mem_dropWhile_of_not h2 hp
  exact List.mem_reverse.mpr h3

theorem pyIsDigit_eq_false_of_mem {s : String} {c : Char}
    (hc : c ∈ s.data) (hd : c.isDigit = false) : pyIsDigit s = false := by
  unfold pyIsDigit
  rw [Bool.and_eq_false_iff]
  right
  rw [List.all_eq_false]
  exact ⟨c, hc, by simp [hd]⟩

theorem pyIsDigit_pyStrip_of_timecode {tc : String} (h : matchesTimecode tc = true) :
    pyIsDigit (pyStrip tc) = false := by
  obtain ⟨a, b, rest, hdata, -, -⟩ := matchesTimecode_data h
  have hmem : (':' : Char) ∈ tc.data := by rw [hdata]; simp
  have hcolon : (':' : Char) ∈ (pyStrip tc).data :=
    mem_pyStrip_of_not_space hmem (by decide)
  exact pyIsDigit_eq_false_of_mem hcolon (by decide)

/-! ## splitlines lemmas -/

theorem splitlinesAux_cons_newline (rest acc : List Char) :
    splitlinesAux ('\n' :: rest) acc = String.mk acc.reverse :: splitlinesAux rest [] := by
  cases rest with
  | nil =>
    simp [splitlinesAux, show isLineBreak '\n' = true from by decide]
  | cons d rest2 =>
    simp [splitlinesAux, show isLineBreak '\n' = true from by decide,
      show ('\n' : Char) ≠ '\r' from by decide]

theorem splitlinesAux_cons_nonbreak {c : Char} (h : isLineBreak c = false)
    (rest acc : List Char) : splitlinesAux (c :: rest) acc = splitlinesAux rest (c :: acc) := by
  cases rest with
  | nil => simp [splitlinesAux, h]
  | cons d rest2 => simp [splitlinesAux, h]

theorem splitlinesAux_flat (cs : List Char) :
    ∀ (acc bs : List Char), (∀ c ∈ cs, isLineBreak c = false) →
      splitlinesAux (cs ++ '\n' :: bs) acc =
        String.mk (acc.reverse ++ cs) :: splitlinesAux bs [] := by
  induction cs with
  | nil =>
    intro acc bs _
    simpa using splitlinesAux_cons_newline bs acc
  | cons c cs ih =>
    intro acc bs h
    have hc : isLineBreak c = false := h c (by simp)
    rw [List.cons_append, splitlinesAux_cons_nonbreak hc,
      ih (c :: acc) bs (fun d hd => h d (by simp [hd]))]
    simp

theorem splitlinesAux_nlOnly (cs : List Char) :
    ∀ (acc bs : List Char), (∀ c ∈ cs, isLineBreak c = true → c = '\n') →
      splitlinesAux (cs ++ '\n' :: bs) acc =
        splitlinesAux (cs ++ ['\n']) acc ++ splitlinesAux bs [] := by
  induction cs with
  | nil =>
    intro acc bs _
    rw [List.nil_append, List.nil_append, splitlinesAux_cons_newline,
      splitlinesAux_cons_newline]
    simp [splitlinesAux]
  | cons c cs ih =>
    intro acc bs h
    by_cases hc : isLineBreak c
    · have hcn : c = '\n' := h c (by simp) hc
      subst hcn
      rw [List.cons_append, List.cons_append, splitlinesAux_cons_newline,
        splitlinesAux_cons_newline, ih [] bs (fun d hd => h d (by simp [hd])),
        List.cons_append]
    · rw [List.cons_append, List.cons_append,
        splitlinesAux_cons_nonbreak (by simp [hc]),
        splitlinesAux_cons_nonbreak (by simp [hc]),
        ih (c :: acc) bs (fun d hd => h d (by simp [hd]))]

theorem newline_data : ("\n" : String).data = ['\n'] := rfl

theorem data_append_newline_append (a b : String) :
    (a ++ "\n" ++ b).data = a.data ++ '\n' :: b.data := by
  rw [String.data_append, String.data_append, newline_data, List.append_assoc,
    List.singleton_append]

theorem data_append_newline (a : String) : (a ++ "\n").data = a.data ++ ['\n'] := by
  rw [String.data_append, newline_data]

theorem splitlines_flat_append {a : String} (h : lineBreakFree a = true) (b : String) :
    splitlines (a ++ "\n" ++ b) = a :: splitlines b := by
  unfold splitlines
  rw [data_append_newline_append,
    splitlinesAux_flat a.data [] b.data
      (fun c hc => by simpa using (List.all_eq_true.mp h) c hc)]
  rfl

theorem splitlines_nlOnly_append {t : String}
    (h : ∀ c ∈ t.data, isLineBreak c = true → c = '\n') (b : String) :
    splitlines (t ++ "\n" ++ b) = splitlines (t ++ "\n") ++ splitlines b := by
  unfold splitlines
  rw [data_append_newline_append, splitlinesAux_nlOnly t.data [] b.data h,
    data_append_newline]

theorem splitlinesAux_lineBreakFree (cs : List Char) :
    ∀ (acc : List Char), (∀ c ∈ acc, isLineBreak c = false) →
      ∀ l ∈ splitlinesAux cs acc, lineBreakFree l = true := by
  induction cs with
  | nil =>
    intro acc hacc l hl
    unfold splitlinesAux at hl
    by_cases he : acc.isEmpty <;> simp [he] at hl
    subst hl
    unfold lineBreakFree
    rw [List.all_eq_true]
    intro c hc
    simp [hacc c (by simpa using hc)]
  | cons c cs ih =>
    intro acc hacc l hl
    have hfirst : lineBreakFree (String.mk acc.reverse) = true := by
      unfold lineBreakFree
      rw [List.all_eq_true]
      intro d hd
      simp [hacc d (by simpa using hd)]
    have hd : ∀ l ∈ splitlinesAux cs [], lineBreakFree l = true :=
      ih [] (by intro d hd; cases hd)
    by_cases hc : isLineBreak c
    · cases cs with
      | nil =>
        rw [show splitlinesAux [c] acc = [String.mk acc.reverse] by
          simp [splitlinesAux, hc]] at hl
        rcases List.mem_singleton.mp hl with rfl
        exact hfirst
      | cons d cs2 =>
        by_cases hcd : c = '\r' ∧ d = '\n'
        · obtain ⟨rfl, rfl⟩ := hcd
          rw [show splitlinesAux ('\r' :: '\n' :: cs2) acc =
              String.mk acc.reverse :: splitlinesAux cs2 [] by
              simp [splitlinesAux, show isLineBreak '\r' = true from by decide]] at hl
          rcases List.mem_cons.mp hl with rfl | hl'
          · exact hfirst
          · refine hd l ?_
            rw [splitlinesAux_cons_newline]
            exact List.mem_cons_of_mem _ hl'
        · rw [show splitlinesAux (c :: d :: cs2) acc =
              String.mk acc.reverse :: splitlinesAux (d :: cs2) [] by
              simp [splitlinesAux, hc, hcd]] at hl
          rcases List.mem_cons.mp hl with rfl | hl'
          · exact hfirst
          · exact hd l hl'
    · rw [splitlinesAux_cons_nonbreak (by simp [hc])] at hl
      refine ih (c :: acc) ?_ l hl
      intro d hd'
      rcases List.mem_cons.mp hd' with rfl | hd''
      · simp [hc]
      · exact hacc d hd''

theorem splitlines_lineBreakFree {s : String} :
    ∀ l ∈ splitlines s, lineBreakFree l = true :=
  splitlinesAux_lineBreakFree s.data [] (by intro d hd; cases hd)

/-! ## Parser lemmas -/

theorem collectText_snd_length (ls : List String) :
    (collectText ls).2.length ≤ ls.length := by
  induction ls with
  | nil => simp [collectText]
  | cons l rest ih =>
    by_cases h : pyStrip l = ""
    · simp [collectText, h]
    · simp only [collectText, h, if_false]
      exact Nat.le_succ_of_le ih

theorem collectText_fst (ls : List String) :
    ∀ l ∈ (collectText ls).1, l ∈ ls ∧ pyStrip l ≠ "" := by
  induction ls with
  | nil => intro l hl; cases hl
  | cons x rest ih =>
    intro l hl
    by_cases h : pyStrip x = ""
    · simp [collectText, h] at hl
    · simp only [collectText, h, if_false] at hl
      rcases List.mem_cons.mp hl with rfl | hl'
      · exact ⟨List.mem_cons_self _ _, h⟩
      · exact ⟨List.mem_cons_of_mem _ (ih l hl').1, (ih l hl').2⟩

theorem collectText_snd_mem (ls : List String) :
    ∀ l ∈ (collectText ls).2, l ∈ ls := by
  induction ls with
  | nil => intro l hl; cases hl
  | cons x rest ih =>
    intro l hl
    by_cases h : pyStrip x = ""
    · simpa [collectText, h] using hl
    · simp only [collectText, h, if_false] at hl
      exact List.mem_cons_of_mem _ (ih l hl)

theorem skipBlankOne_length (ls : List String) :
    (skipBlankOne ls).length ≤ ls.length := by
  cases ls with
  | nil => simp [skipBlankOne]
  | cons l rest =>
    by_cases h : pyStrip l = "" <;> simp [skipBlankOne, h, Nat.le_succ]

theorem skipBlankOne_mem (ls : List String) :
    ∀ l ∈ skipBlankOne ls, l ∈ ls := by
  cases ls with
  | nil => intro l hl; cases hl
  | cons x rest =>
    intro l hl
    by_cases h : pyStrip x = ""
    · simp only [skipBlankOne, h, if_true] at hl
      exact List.mem_cons_of_mem _ hl
    · simpa [skipBlankOne, h] using hl

theorem skipToBlank_mem (ls : List String) :
    ∀ l ∈ skipToBlank ls, l ∈ ls := by
  induction ls with
  | nil => intro l hl; cases hl
  | cons x rest ih =>
    intro l hl
    by_cases h : pyStrip x = ""
    · simpa [skipToBlank, h] using hl
    · simp only [skipToBlank, h, if_false] at hl
      exact List.mem_cons_of_mem _ (ih l hl)

theorem parseCuesF_fuel (fuel : Nat) :
    ∀ (fuel' : Nat) (ls : List String) (idx : Nat),
      ls.length ≤ fuel → ls.length ≤ fuel' →
      parseCuesF fuel ls idx = parseCuesF fuel' ls idx := by
  induction fuel with
  | zero =>
    intro fuel' ls idx h _
    rw [Nat.le_zero, List.length_eq_zero] at h
    subst h
    cases fuel' <;> rfl
  | succ fuel ih =>
    intro fuel' ls idx h h'
    cases ls with
    | nil => cases fuel' <;> rfl
    | cons l rest =>
      cases fuel' with
      | zero => exact absurd h' (by simp)
      | succ fuel'' =>
        have hrest : rest.length ≤ fuel := by
          simpa using Nat.le_of_succ_le_succ h
        have hrest' : rest.length ≤ fuel'' := by
          simpa using Nat.le_of_succ_le_succ h'
        simp only [parseCuesF]
        by_cases hdig : pyIsDigit (pyStrip l)
        · simp only [hdig, if_true]
          cases rest with
          | nil => rfl
          | cons l2 rest2 =>
            have h2 : rest2.length ≤ fuel := le_trans (by simp) hrest
            have h2' : rest2.length ≤ fuel'' := le_trans (by simp) hrest'
            by_cases htc : matchesTimecode l2
            · simp only [htc, if_true]
              have hlen : (skipBlankOne (collectText rest2).2).length ≤ rest2.length :=
                le_trans (skipBlankOne_length _) (collectText_snd_length _)
              rw [ih fuel'' _ _ (le_trans hlen h2) (le_trans hlen h2')]
            · simp only [htc, Bool.false_eq_true, if_false]
              exact ih fuel'' _ _ h2 h2'
        · simp only [hdig, Bool.false_eq_true, if_false]
          by_cases htc : matchesTimecode l
          · simp only [htc, if_true]
            have hlen : (skipBlankOne (collectText rest).2).length ≤ rest.length :=
              le_trans (skipBlankOne_length _) (collectText_snd_length _)
            rw [ih fuel'' _ _ (le_trans hlen hrest) (le_trans hlen hrest')]
          · simp only [htc, Bool.false_eq_true, if_false]
            exact ih fuel'' _ _ hrest hrest'

theorem parseCues_nil (idx : Nat) : parseCues [] idx = [] := rfl

theorem parseCues_cons (l : String) (rest : List String) (idx : Nat) :
    parseCues (l :: rest) idx =
      match (if pyIsDigit (pyStrip l) then rest else l :: rest) with
      | [] => []
      | l2 :: rest2 =>
        if matchesTimecode l2 then
          Cue.mk idx l2 (collectText rest2).1 ::
            parseCues (skipBlankOne (collectText rest2).2) (idx + 1)
        else parseCues rest2 idx := by
  unfold parseCues
  rw [show (l :: rest).length = rest.length + 1 from rfl]
  simp only [parseCuesF]
  by_cases hdig : pyIsDigit (pyStrip l)
  · simp only [hdig, if_true]
    cases rest with
    | nil => rfl
    | cons l2 rest2 =>
      by_cases htc : matchesTimecode l2
      · simp only [htc, if_true]
        rw [parseCuesF_fuel _ (skipBlankOne (collectText rest2).2).length _ _
          (le_trans (le_trans (skipBlankOne_length _) (collectText_snd_length _)) (by simp))
          le_rfl]
      · simp only [htc, Bool.false_eq_true, if_false]
        exact parseCuesF_fuel _ _ _ _ (by simp) le_rfl
  · simp only [hdig, Bool.false_eq_true, if_false]
    by_cases htc : matchesTimecode l
    · simp only [htc, if_true]
      rw [parseCuesF_fuel _ (skipBlankOne (collectText rest).2).length _ _
        (le_trans (skipBlankOne_length _) (collectText_snd_length _)) le_rfl]
    · simp only [htc, Bool.false_eq_true, if_false]

theorem parseCues_digit_timecode {d tc : String} (rest : List String) (idx : Nat)
    (hd : pyIsDigit (pyStrip d) = true) (htc : matchesTimecode tc = true) :
    parseCues (d :: tc :: rest) idx =
      Cue.mk idx tc (collectText rest).1 ::
        parseCues (skipBlankOne (collectText rest).2) (idx + 1) := by
  rw [parseCues_cons]
  simp [hd, htc]

theorem parseCues_timecode {tc : String} (rest : List String) (idx : Nat)
    (htc : matchesTimecode tc = true) :
    parseCues (tc :: rest) idx =
      Cue.mk idx tc (collectText rest).1 ::
        parseCues (skipBlankOne (collectText rest).2) (idx + 1) := by
  rw [parseCues_cons]
  simp [pyIsDigit_pyStrip_of_timecode htc, htc]

theorem parseCues_skip {l : String} (rest : List String) (idx : Nat)
    (hd : pyIsDigit (pyStrip l) = false) (htc : matchesTimecode l = false) :
    parseCues (l :: rest) idx = parseCues rest idx := by
  rw [parseCues_cons]
  simp [hd, htc]

theorem parseCues_blank (rest : List String) (idx : Nat) :
    parseCues ("" :: rest) idx = parseCues rest idx :=
  parseCues_skip rest idx (by decide) (by decide)

theorem parseCuesF_idx :
    ∀ (fuel : Nat) (ls : List String) (idx : Nat),
      (parseCuesF fuel ls idx).map Cue.idx =
        List.range' idx (parseCuesF fuel ls idx).length := by
  intro fuel
  induction fuel with
  | zero => intro ls idx; rfl
  | succ fuel ih =>
    intro ls idx
    cases ls with
    | nil => rfl
    | cons l rest =>
      simp only [parseCuesF]
      by_cases hdig : pyIsDigit (pyStrip l)
      · simp only [hdig, if_true]
        cases rest with
        | nil => rfl
        | cons l2 rest2 =>
          by_cases htc : matchesTimecode l2
          · simp only [htc, if_true, List.map_cons, List.length_cons, List.range'_succ]
            rw [ih]
          · simp only [htc, Bool.false_eq_true, if_false]
            exact ih _ _
      · simp only [hdig, Bool.false_eq_true, if_false]
        by_cases htc : matchesTimecode l
        · simp only [htc, if_true, List.map_cons, List.length_cons, List.range'_succ]
          rw [ih]
        · simp only [htc, Bool.false_eq_true, if_false]
          exact ih _ _

theorem parseCues_idx (ls : List String) (idx : Nat) :
    (parseCues ls idx).map Cue.idx = List.range' idx (parseCues ls idx).length :=
  parseCuesF_idx _ ls idx

/-- The invariant every cue produced by the parser satisfies: its timecode line
matches `TIMECODE_RE` and came from a `splitlines` line (hence is free of line
breaks); every text line is non-blank and free of line breaks. -/
def CueOk (c : Cue) : Prop :=
  matchesTimecode c.timecode = true ∧ lineBreakFree c.timecode = true ∧
    ∀ l ∈ c.text_lines, pyStrip l ≠ "" ∧ lineBreakFree l = true

theorem parseCuesF_wf :
    ∀ (fuel : Nat) (ls : List String) (idx : Nat),
      (∀ l ∈ ls, lineBreakFree l = true) →
      ∀ c ∈ parseCuesF fuel ls idx, CueOk c := by
  intro fuel
  induction fuel with
  | zero => intro ls idx _ c hc; cases hc
  | succ fuel ih =>
    intro ls idx hls c hc
    cases ls with
    | nil => cases hc
    | cons l rest =>
      simp only [parseCuesF] at hc
      by_cases hdig : pyIsDigit (pyStrip l)
      · simp only [hdig, if_true] at hc
        cases rest with
        | nil => cases hc
        | cons l2 rest2 =>
          have hrest2 : ∀ x ∈ rest2, lineBreakFree x = true :=
            fun x hx => hls x (by simp [hx])
          by_cases htc : matchesTimecode l2
          · simp only [htc, if_true] at hc
            rcases List.mem_cons.mp hc with rfl | hc'
            · refine ⟨htc, hls l2 (by simp), ?_⟩
              intro x hx
              obtain ⟨hmem, hblank⟩ := collectText_fst rest2 x hx
              exact ⟨hblank, hrest2 x hmem⟩
            · refine ih _ _ ?_ c hc'
              intro x hx
              exact hrest2 x (collectText_snd_mem _ _ (skipBlankOne_mem _ _ hx))
          · simp only [htc, Bool.false_eq_true, if_false] at hc
            exact ih _ _ hrest2 c hc
      · simp only [hdig, Bool.false_eq_true, if_false] at hc
        have hrest : ∀ x ∈ rest, lineBreakFree x = true :=
          fun x hx => hls x (by simp [hx])
        by_cases htc : matchesTimecode l
        · simp only [htc, if_true] at hc
          rcases List.mem_cons.mp hc with rfl | hc'
          · refine ⟨htc, hls l (by simp), ?_⟩
            intro x hx
            obtain ⟨hmem, hblank⟩ := collectText_fst rest x hx
            exact ⟨hblank, hrest x hmem⟩
          · refine ih _ _ ?_ c hc'
            intro x hx
            exact hrest x (collectText_snd_mem _ _ (skipBlankOne_mem _ _ hx))
        · simp only [htc, Bool.false_eq_true, if_false] at hc
          exact ih _ _ hrest c hc

theorem parseCues_wf {ls : List String} (hls : ∀ l ∈ ls, lineBreakFree l = true) :
    ∀ c ∈ parseCues ls idx, CueOk c :=
  parseCuesF_wf _ ls idx hls

/-! ## Serializer lemmas -/

theorem str_empty_append (s : String) : "" ++ s = s := by
  apply String.ext
  rw [String.data_append]
  rfl

theorem str_append_empty (s : String) : s ++ "" = s := by
  apply String.ext
  rw [String.data_append]
  exact List.append_nil _

theorem nlnl_eq : ("\n\n" : String) = "\n" ++ "\n" := by decide

theorem splitlines_flat_append' {a : String} (h : lineBreakFree a = true) (b : String) :
    splitlines (a ++ ("\n" ++ b)) = a :: splitlines b := by
  rw [← String.append_assoc]
  exact splitlines_flat_append h b

theorem splitlines_nlOnly_append' {t : String}
    (h : ∀ c ∈ t.data, isLineBreak c = true → c = '\n') (b : String) :
    splitlines (t ++ ("\n" ++ b)) = splitlines (t ++ "\n") ++ splitlines b := by
  rw [← String.append_assoc]
  exact splitlines_nlOnly_append h b

theorem newline_append_data (b : String) : ("\n" ++ b).data = '\n' :: b.data := by
  rw [String.data_append, newline_data]
  rfl

theorem splitlines_newline_cons (b : String) :
    splitlines ("\n" ++ b) = "" :: splitlines b := by
  unfold splitlines
  rw [newline_append_data, splitlinesAux_cons_newline]
  rfl

theorem dictGet_nil (k : Int) : dictGet [] k = none := rfl

theorem cueText_nil (c : Cue) : cueText [] c = joinNl c.text_lines := rfl

/-- The lines a single cue chunk contributes to the output file. -/
def blockLinesTr (tr : List (Int × String)) (c : Cue) : List String :=
  Nat.repr (c.idx + 1) :: c.timecode :: (splitlines (cueText tr c ++ "\n") ++ [""])

theorem cueBlock_assoc (tr : List (Int × String)) (c : Cue) (b : String) :
    cueBlock tr c ++ b =
      Nat.repr (c.idx + 1) ++
        ("\n" ++ (c.timecode ++ ("\n" ++ (cueText tr c ++ ("\n" ++ ("\n" ++ b)))))) := by
  unfold cueBlock
  rw [nlnl_eq]
  simp only [String.append_assoc]

theorem splitlines_writeBlocks (tr : List (Int × String)) :
    ∀ (cs : List Cue),
      (∀ c ∈ cs, lineBreakFree c.timecode = true) →
      (∀ c ∈ cs, ∀ ch ∈ (cueText tr c).data, isLineBreak ch = true → ch = '\n') →
      splitlines (writeBlocks tr cs) = cs.flatMap (blockLinesTr tr) := by
  intro cs
  induction cs with
  | nil => intro _ _; rfl
  | cons c cs ih =>
    intro htc htx
    show splitlines (cueBlock tr c ++ writeBlocks tr cs) = _
    rw [cueBlock_assoc,
      splitlines_flat_append' (lineBreakFree_natRepr _),
      splitlines_flat_append' (htc c (by simp)),
      splitlines_nlOnly_append' (htx c (by simp)),
      splitlines_newline_cons,
      ih (fun x hx => htc x (by simp [hx])) (fun x hx => htx x (by simp [hx]))]
    simp [blockLinesTr]

theorem splitlines_joinNl {tls : List String}
    (h : ∀ l ∈ tls, lineBreakFree l = true) :
    splitlines (joinNl tls ++ "\n") = (if tls = [] then [""] else tls) := by
  induction tls with
  | nil =>
    rw [show joinNl [] = "" from rfl, str_empty_append]
    decide
  | cons t ts ih =>
    cases ts with
    | nil =>
      rw [show joinNl [t] = t from rfl]
      unfold splitlines
      rw [data_append_newline,
        show t.data ++ ['\n'] = t.data ++ '\n' :: ([] : List Char) from rfl,
        splitlinesAux_flat t.data [] []
          (fun c hc => by simpa using (List.all_eq_true.mp (h t (by simp))) c hc)]
      simp [splitlinesAux]
    | cons t2 ts2 =>
      rw [show joinNl (t :: t2 :: ts2) = t ++ "\n" ++ joinNl (t2 :: ts2) from rfl,
        String.append_assoc, String.append_assoc,
        splitlines_flat_append' (h t (by simp))]
      rw [ih (fun x hx => h x (by simp [hx]))]
      simp

theorem joinNl_nlOnly {tls : List String}
    (h : ∀ l ∈ tls, lineBreakFree l = true) :
    ∀ ch ∈ (joinNl tls).data, isLineBreak ch = true → ch = '\n' := by
  induction tls with
  | nil => intro ch hch; cases hch
  | cons t ts ih =>
    cases ts with
    | nil =>
      intro ch hch hbr
      have := List.all_eq_true.mp (h t (by simp)) ch hch
      simp at this
      rw [this] at hbr
      cases hbr
    | cons t2 ts2 =>
      intro ch hch hbr
      rw [show joinNl (t :: t2 :: ts2) = t ++ "\n" ++ joinNl (t2 :: ts2) from rfl,
        data_append_newline_append] at hch
      rcases List.mem_append.mp hch with hch' | hch'
      · have := List.all_eq_true.mp (h t (by simp)) ch hch'
        simp at this
        rw [this] at hbr
        cases hbr
      · rcases List.mem_cons.mp hch' with rfl | hch''
        · rfl
        · exact ih (fun x hx => h x (by simp [hx])) ch hch'' hbr

/-- Block lines of a cue serialized with the empty translation mapping, in
terms of the cue's own text lines. -/
def blockLines (c : Cue) : List String :=
  Nat.repr (c.idx + 1) :: c.timecode ::
    ((if c.text_lines = [] then [""] else c.text_lines) ++ [""])

theorem blockLinesTr_nil_eq {c : Cue} (hok : CueOk c) :
    blockLinesTr [] c = blockLines c := by
  unfold blockLinesTr blockLines
  rw [cueText_nil, splitlines_joinNl (fun l hl => (hok.2.2 l hl).2)]

/-! ## Round-trip lemmas -/

theorem pyStrip_empty : pyStrip "" = "" := rfl

theorem collectText_prefix :
    ∀ (tls R : List String), (∀ l ∈ tls, pyStrip l ≠ "") →
      collectText (tls ++ "" :: R) = (tls, "" :: R) := by
  intro tls
  induction tls with
  | nil =>
    intro R _
    simp [collectText, pyStrip_empty]
  | cons t ts ih =>
    intro R h
    have ht : pyStrip t ≠ "" := h t (by simp)
    rw [List.cons_append,
      show collectText (t :: (ts ++ "" :: R)) =
        (t :: (collectText (ts ++ "" :: R)).1, (collectText (ts ++ "" :: R)).2) by
        simp [collectText, ht],
      ih R (fun x hx => h x (by simp [hx]))]

theorem skipBlankOne_blank (R : List String) : skipBlankOne ("" :: R) = R := by
  simp [skipBlankOne, pyStrip_empty]

theorem flatMap_congr {α β : Type} {f g : α → List β} :
    ∀ {l : List α}, (∀ x ∈ l, f x = g x) → l.flatMap f = l.flatMap g := by
  intro l
  induction l with
  | nil => intro _; rfl
  | cons x xs ih =>
    intro h
    simp only [List.flatMap_cons]
    rw [h x (by simp), ih (fun y hy => h y (by simp [hy]))]

theorem parseCues_blocks :
    ∀ (cs : List Cue) (idx : Nat), (∀ c ∈ cs, CueOk c) →
      cs.map Cue.idx = List.range' idx cs.length →
      parseCues (cs.flatMap blockLines) idx = cs := by
  intro cs
  induction cs with
  | nil => intro idx _ _; rfl
  | cons c cs ih =>
    intro idx hwf hidx
    rw [List.map_cons, List.length_cons, List.range'_succ] at hidx
    have h1 : c.idx = idx := List.head_eq_of_cons_eq hidx
    have h2 : List.map Cue.idx cs = List.range' (idx + 1) cs.length :=
      List.tail_eq_of_cons_eq hidx
    subst h1
    have hok : CueOk c := hwf c (by simp)
    have hihyp := ih (c.idx + 1) (fun x hx => hwf x (by simp [hx])) h2
    rw [List.flatMap_cons]
    rcases htl : c.text_lines with _ | ⟨t, ts⟩
    · rw [show blockLines c ++ cs.flatMap blockLines =
          Nat.repr (c.idx + 1) :: c.timecode :: "" :: "" :: cs.flatMap blockLines by
          simp [blockLines, htl],
        parseCues_digit_timecode _ _ (pyIsDigit_pyStrip_natRepr _) hok.1,
        show collectText ("" :: "" :: cs.flatMap blockLines) =
          ([], "" :: "" :: cs.flatMap blockLines) by simp [collectText, pyStrip_empty],
        skipBlankOne_blank, parseCues_blank, hihyp]
      have hc : Cue.mk c.idx c.timecode [] = c := by rw [← htl]
      rw [hc]
    · have htext : ∀ l ∈ t :: ts, pyStrip l ≠ "" := by
        intro l hl
        exact (hok.2.2 l (by rw [htl]; exact hl)).1
      rw [show blockLines c ++ cs.flatMap blockLines =
          Nat.repr (c.idx + 1) :: c.timecode ::
            ((t :: ts) ++ "" :: cs.flatMap blockLines) by
          simp [blockLines, htl],
        parseCues_digit_timecode _ _ (pyIsDigit_pyStrip_natRepr _) hok.1,
        collectText_prefix _ _ htext, skipBlankOne_blank, hihyp]
      have hc : Cue.mk c.idx c.timecode (t :: ts) = c := by rw [← htl]
      rw [hc]

theorem webvtt_lineBreakFree : lineBreakFree "WEBVTT" = true := by decide

theorem splitlines_write_vtt_nil {cs : List Cue} (hwf : ∀ c ∈ cs, CueOk c) :
    splitlines (write_vtt "WEBVTT" cs []) = "WEBVTT" :: "" :: cs.flatMap blockLines := by
  unfold write_vtt
  rw [nlnl_eq]
  simp only [String.append_assoc]
  rw [splitlines_flat_append' webvtt_lineBreakFree, splitlines_newline_cons,
    splitlines_writeBlocks [] cs (fun c hc => (hwf c hc).2.1)
      (fun c hc => by
        rw [cueText_nil]
        exact joinNl_nlOnly (fun l hl => ((hwf c hc).2.2 l hl).2)),
    flatMap_congr (fun c hc => blockLinesTr_nil_eq (hwf c hc))]

theorem parse_vtt_eq_of_splitlines {w l0 : String} {rest : List String}
    (hw : splitlines w = l0 :: rest) :
    parse_vtt w =
      if pyStartsWith l0 "WEBVTT" = true then
        .ok ("WEBVTT", parseCues (skipBlankOne (skipToBlank rest)) 0)
      else .error "Not a VTT file" := by
  unfold parse_vtt
  rw [hw]

theorem parse_vtt_ok {w header : String} {cs : List Cue}
    (h : parse_vtt w = .ok (header, cs)) :
    header = "WEBVTT" ∧
      ∃ l0 rest, splitlines w = l0 :: rest ∧ pyStartsWith l0 "WEBVTT" = true ∧
        cs = parseCues (skipBlankOne (skipToBlank rest)) 0 := by
  cases hw : splitlines w with
  | nil =>
    rw [show parse_vtt w = .error "Not a VTT file" by unfold parse_vtt; rw [hw]] at h
    cases h
  | cons l0 rest =>
    rw [parse_vtt_eq_of_splitlines hw] at h
    by_cases hst : pyStartsWith l0 "WEBVTT"
    · rw [if_pos hst] at h
      injection h with h'
      injection h' with h1 h2
      exact ⟨h1.symm, l0, rest, rfl, hst, h2.symm⟩
    · rw [if_neg hst] at h
      cases h

theorem parse_vtt_write_vtt {cs : List Cue} (hwf : ∀ c ∈ cs, CueOk c)
    (hidx : cs.map Cue.idx = List.range' 0 cs.length) :
    parse_vtt (write_vtt "WEBVTT" cs []) = .ok ("WEBVTT", cs) := by
  rw [parse_vtt_eq_of_splitlines (splitlines_write_vtt_nil hwf)]
  rw [if_pos (show pyStartsWith "WEBVTT" "WEBVTT" = true by decide)]
  rw [show skipToBlank ("" :: cs.flatMap blockLines) = "" :: cs.flatMap blockLines by
      simp [skipToBlank, pyStrip_empty],
    skipBlankOne_blank, parseCues_blocks cs 0 hwf hidx]

theorem parse_vtt_cues_wf {w header : String} {cs : List Cue}
    (hp : parse_vtt w = .ok (header, cs)) :
    (∀ c ∈ cs, CueOk c) ∧ cs.map Cue.idx = List.range' 0 cs.length := by
  obtain ⟨-, l0, rest, hw, -, hcs⟩ := parse_vtt_ok hp
  have hbody : ∀ l ∈ skipBlankOne (skipToBlank rest), lineBreakFree l = true := by
    intro l hl
    have h1 : l ∈ rest := skipToBlank_mem _ _ (skipBlankOne_mem _ _ hl)
    have h2 : l ∈ splitlines w := by rw [hw]; simp [h1]
    exact splitlines_lineBreakFree l h2
  constructor
  · rw [hcs]; exact parseCues_wf hbody
  · rw [hcs]; exact parseCues_idx _ 0

/-! ## Orchestrator lemmas -/

theorem batches_map_slice (cues : List Cue) :
    batches cues =
      (List.range ((cues.length + 49) / 50)).map
        (fun k => (cues.drop (50 * k)).take 50) := by
  unfold batches batchStarts
  rw [List.map_map]
  rfl

theorem batches_nil : batches [] = [] := rfl

theorem batches_pos {cues : List Cue} (h : 0 < cues.length) :
    batches cues = cues.take 50 :: batches (cues.drop 50) := by
  rw [batches_map_slice, batches_map_slice]
  have h1 : cues.length + 49 = (cues.length - 1) + 50 := by omega
  have h2 : (cues.drop 50).length + 49 = (cues.length - 50) + 49 := by
    rw [List.length_drop]
  have h3 : ((cues.length - 50) + 49) / 50 = (cues.length - 1) / 50 := by
    rcases Nat.lt_or_ge cues.length 50 with hlt | hge
    · have e1 : cues.length - 50 = 0 := by omega
      have e2 : (cues.length - 1) / 50 = 0 :=
        (Nat.div_eq_zero_iff (by norm_num)).mpr (by omega)
      rw [e1, e2]
    · congr 1
      omega
  rw [h1, Nat.add_div_right _ (by norm_num), h2, h3,
    List.range_succ_eq_map, List.map_cons, Nat.mul_zero, List.drop_zero,
    List.map_map]
  refine congrArg _ (List.map_congr_left ?_)
  intro k _
  show (cues.drop (50 * (k + 1))).take 50 = ((cues.drop 50).drop (50 * k)).take 50
  rw [List.drop_drop]
  congr 2
  ring

theorem batches_eq_nil_iff (cues : List Cue) : batches cues = [] ↔ cues = [] := by
  rw [batches_map_slice]
  constructor
  · intro h
    rw [List.map_eq_nil_iff, List.range_eq_nil] at h
    have := (Nat.div_eq_zero_iff (show (0:Nat) < 50 by norm_num)).mp h
    exact List.length_eq_zero.mp (by omega)
  · intro h
    subst h
    rfl

theorem batches_flatten_aux :
    ∀ (n : Nat) (cues : List Cue), cues.length ≤ n → (batches cues).flatten = cues := by
  intro n
  induction n with
  | zero =>
    intro cues h
    rw [List.length_eq_zero.mp (Nat.le_zero.mp h)]
    rfl
  | succ n ih =>
    intro cues h
    rcases Nat.eq_zero_or_pos cues.length with hz | hpos
    · rw [List.length_eq_zero.mp hz]
      rfl
    · rw [batches_pos hpos, List.flatten_cons,
        ih (cues.drop 50) (by rw [List.length_drop]; omega)]
      exact List.take_append_drop 50 cues

theorem batches_flatten (cues : List Cue) : (batches cues).flatten = cues :=
  batches_flatten_aux cues.length cues le_rfl

theorem batches_le_50 (cues : List Cue) : ∀ b ∈ batches cues, b.length ≤ 50 := by
  intro b hb
  rw [batches_map_slice] at hb
  obtain ⟨k, -, rfl⟩ := List.mem_map.mp hb
  rw [List.length_take]
  exact min_le_left _ _

theorem batches_dropLast_aux :
    ∀ (n : Nat) (cues : List Cue), cues.length ≤ n →
      ∀ b ∈ (batches cues).dropLast, b.length = 50 := by
  intro n
  induction n with
  | zero =>
    intro cues h b hb
    rw [List.length_eq_zero.mp (Nat.le_zero.mp h)] at hb
    cases hb
  | succ n ih =>
    intro cues h b hb
    rcases Nat.eq_zero_or_pos cues.length with hz | hpos
    · rw [List.length_eq_zero.mp hz] at hb
      cases hb
    · rw [batches_pos hpos] at hb
      cases hrest : batches (cues.drop 50) with
      | nil => rw [hrest] at hb; cases hb
      | cons d ds =>
        rw [hrest, List.dropLast_cons₂, ← hrest] at hb
        rcases List.mem_cons.mp hb with rfl | hb'
        · have hne : cues.drop 50 ≠ [] := by
            intro hnil
            rw [hnil] at hrest
            cases hrest
          have h50 : 50 < cues.length := by
            rcases Nat.lt_or_ge 50 cues.length with h' | h'
            · exact h'
            · exact absurd (List.drop_eq_nil_of_le h') hne
          rw [List.length_take]
          omega
        · exact ih (cues.drop 50) (by rw [List.length_drop]; omega) b hb'

theorem batches_dropLast (cues : List Cue) :
    ∀ b ∈ (batches cues).dropLast, b.length = 50 :=
  batches_dropLast_aux cues.length cues le_rfl

theorem translate_batch_items
    (f : List (Int × String) → String → List (Int × String))
    (b : List Cue) (lang : String) :
    translate_batch (fun p l => RemoteResp.items (f p l)) b lang =
      .ok (f (batchPayload b) lang) := rfl

theorem foldlM_batches_items
    (f : List (Int × String) → String → List (Int × String)) (lang : String) :
    ∀ (bs : List (List Cue)) (acc : List (Int × String)),
      bs.foldlM
        (fun tr b =>
          (translate_batch (fun p l => RemoteResp.items (f p l)) b lang).map
            (fun m => tr ++ m)) acc =
      .ok (acc ++ bs.flatMap (fun b => f (batchPayload b) lang)) := by
  intro bs
  induction bs with
  | nil =>
    intro acc
    simp only [List.foldlM_nil, List.flatMap_nil, List.append_nil]
    rfl
  | cons b bs ih =>
    intro acc
    rw [List.foldlM_cons, translate_batch_items]
    show (bs.foldlM _ (acc ++ f (batchPayload b) lang)) = _
    rw [ih (acc ++ f (batchPayload b) lang), List.flatMap_cons, List.append_assoc]

theorem runLang_items
    (f : List (Int × String) → String → List (Int × String))
    (cues : List Cue) (lang : String) :
    runLang (fun p l => RemoteResp.items (f p l)) cues lang =
      .ok ((batches cues).flatMap (fun b => f (batchPayload b) lang)) := by
  unfold runLang
  rw [foldlM_batches_items f lang (batches cues) []]
  rfl

theorem except_toOption_ok (tr : List (Int × String)) :
    (Except.ok tr : Except String (List (Int × String))).toOption = some tr := rfl

theorem except_toOption_error (e : String) :
    (Except.error e : Except String (List (Int × String))).toOption = none := rfl

theorem run_main_eq (oracle : List (Int × String) → String → RemoteResp)
    (header : String) (cues : List Cue) :
    ∀ (langs : List String),
      run_main oracle header cues langs =
        (langs.takeWhile (fun l => ((runLang oracle cues l).toOption).isSome)).map
          (fun l => (l, write_vtt header cues ((runLang oracle cues l).toOption.getD []))) := by
  intro langs
  induction langs with
  | nil => rfl
  | cons lang rest ih =>
    show (match runLang oracle cues lang with
      | .ok tr => (lang, write_vtt header cues tr) :: run_main oracle header cues rest
      | .error _ => []) = _
    cases hr : runLang oracle cues lang with
    | ok tr => simp [List.takeWhile_cons, hr, except_toOption_ok, ih]
    | error e => simp [List.takeWhile_cons, hr, except_toOption_error]

/-! ## Trailing-newline and auth lemmas -/

theorem append_nlnl_getLast (s : String) :
    (s ++ "\n\n").data.getLast? = some '\n' := by
  rw [String.data_append, List.getLast?_append]
  rfl

theorem writeBlocks_getLast (tr : List (Int × String)) :
    ∀ (cs : List Cue),
      (writeBlocks tr cs).data.getLast? = none ∨
        (writeBlocks tr cs).data.getLast? = some '\n' := by
  intro cs
  induction cs with
  | nil => exact Or.inl rfl
  | cons c cs ih =>
    right
    show ((cueBlock tr c ++ writeBlocks tr cs).data).getLast? = some '\n'
    rw [String.data_append, List.getLast?_append]
    rcases ih with h | h
    · rw [h]
      show ((cueBlock tr c).data).getLast? = some '\n'
      exact append_nlnl_getLast _
    · rw [h]
      rfl

theorem write_vtt_getLast (header : String) (cues : List Cue)
    (tr : List (Int × String)) :
    (write_vtt header cues tr).data.getLast? = some '\n' := by
  show ((header ++ "\n\n" ++ writeBlocks tr cues).data).getLast? = some '\n'
  rw [String.data_append, List.getLast?_append]
  rcases writeBlocks_getLast tr cues with h | h
  · rw [h]
    show ((header ++ "\n\n").data).getLast? = some '\n'
    exact append_nlnl_getLast _
  · rw [h]
    rfl

theorem pyStartsWith_bearer_ne_empty {s : String}
    (h : pyStartsWith s "Bearer " = true) : s ≠ "" := by
  rintro rfl
  exact absurd h (by decide)

theorem verify_bearer_some {apiBearer : String} (s : String) (h : apiBearer ≠ "") :
    verify_bearer apiBearer (some s) =
      if s = "" || !pyStartsWith s "Bearer " then AuthResult.err 401
      else if pyStrip (afterFirstSpace s) ≠ apiBearer then AuthResult.err 403
      else AuthResult.ok := by
  unfold verify_bearer
  rw [if_neg h]

/-! ## Claim C1 — round-trip -/

/-- Claim C1, counterexample to the file-level clause: the input
`"WEBVTT - Title\n\n1\n...\nHi\n\n"` is WEBVTT-conformant (the signature line
carries metadata, which the WebVTT format allows), parses to one cue, but the
serialized output differs from the original file beyond the synthetic cue
numbering: even after removing all numeric cue-label lines, the header line
changed from `"WEBVTT - Title"` to `"WEBVTT"`. -/
theorem c1_counterexample :
    parse_vtt "WEBVTT - Title\n\n1\n00:00:00.000 --> 00:00:02.000\nHi\n\n" =
      Except.ok ("WEBVTT", [Cue.mk 0 "00:00:00.000 --> 00:00:02.000" ["Hi"]]) ∧
    stripNumberLines (splitlines (write_vtt "WEBVTT"
        [Cue.mk 0 "00:00:00.000 --> 00:00:02.000" ["Hi"]] [])) ≠
      stripNumberLines
        (splitlines "WEBVTT - Title\n\n1\n00:00:00.000 --> 00:00:02.000\nHi\n\n") := by
  constructor
  · decide
  · decide

/-- Claim C1 (amended): for every input accepted by the parser, serializing the
parsed cues with the empty translation mapping and parsing the result again
yields exactly the same cue sequence — same count, same order, and each cue's
index, timecode line and text lines unchanged. (The serialized file itself may
differ from the original beyond the synthetic numbering: the header is
normalized to the constant `WEBVTT` and skipped content and spacing are
normalized.) -/
theorem c1_roundtrip (w header : String) (cs : List Cue)
    (hp : parse_vtt w = Except.ok (header, cs)) :
    parse_vtt (write_vtt header cs []) = Except.ok (header, cs) := by
  have hh : header = "WEBVTT" := (parse_vtt_ok hp).1
  subst hh
  obtain ⟨hwf, hidx⟩ := parse_vtt_cues_wf hp
  exact parse_vtt_write_vtt hwf hidx

/-- Witness for C1 at the spec's own example input. -/
theorem c1_roundtrip_witness :
    parse_vtt "WEBVTT\n\n1\n00:00:00.000 --> 00:00:02.000\nHello world\n\n" =
      Except.ok ("WEBVTT", [Cue.mk 0 "00:00:00.000 --> 00:00:02.000" ["Hello world"]]) ∧
    parse_vtt (write_vtt "WEBVTT"
        [Cue.mk 0 "00:00:00.000 --> 00:00:02.000" ["Hello world"]] []) =
      Except.ok ("WEBVTT", [Cue.mk 0 "00:00:00.000 --> 00:00:02.000" ["Hello world"]]) :=
  ⟨by decide,
   c1_roundtrip "WEBVTT\n\n1\n00:00:00.000 --> 00:00:02.000\nHello world\n\n"
     "WEBVTT" [Cue.mk 0 "00:00:00.000 --> 00:00:02.000" ["Hello world"]] (by decide)⟩

/-! ## Claim C2 — batch failure handling -/

/-- Claim C2, counterexample: with a remote oracle whose every response is
malformed and two requested languages, the run produces no output file at all —
the affected language `de-DE` does not "still produce a complete output file
using original-language fallback text", and the second language `ja-JP` is not
processed either. -/
theorem c2_counterexample :
    run_main (fun _ _ => RemoteResp.malformed) "WEBVTT"
      [Cue.mk 0 "00:00:00.000 --> 00:00:02.000" ["Hi"]] ["de-DE", "ja-JP"] = [] := by
  decide

/-- Claim C2 (amended): a malformed batch response raises a `TranslationError`
that is NOT recovered: the exception propagates out of both loops, so the run's
outputs are exactly the languages processed successfully before the first
failing language, in order; the failing language itself never appears among the
outputs. -/
theorem c2_failure_propagation
    (oracle : List (Int × String) → String → RemoteResp) (header : String)
    (cues : List Cue) (langs : List String) :
    run_main oracle header cues langs =
      (langs.takeWhile (fun l => ((runLang oracle cues l).toOption).isSome)).map
        (fun l => (l, write_vtt header cues ((runLang oracle cues l).toOption.getD []))) ∧
    ∀ (lang e : String), runLang oracle cues lang = Except.error e →
      ∀ out, (lang, out) ∉ run_main oracle header cues langs := by
  refine ⟨run_main_eq oracle header cues langs, ?_⟩
  intro lang e he out hmem
  rw [run_main_eq] at hmem
  obtain ⟨l, hl, heq⟩ := List.mem_map.mp hmem
  have h1 : l = lang := congrArg Prod.fst heq
  subst h1
  have h2 := List.mem_takeWhile_imp hl
  rw [he, except_toOption_error] at h2
  cases h2

/-- Witness for C2: the malformed oracle makes `runLang` fail for `de-DE`,
so no `de-DE` output exists. -/
theorem c2_failure_propagation_witness :
    ("de-DE", "x") ∉ run_main (fun _ _ => RemoteResp.malformed) "WEBVTT"
      [Cue.mk 0 "00:00:00.000 --> 00:00:02.000" ["Hi"]] ["de-DE", "ja-JP"] :=
  (c2_failure_propagation (fun _ _ => RemoteResp.malformed) "WEBVTT"
      [Cue.mk 0 "00:00:00.000 --> 00:00:02.000" ["Hi"]] ["de-DE", "ja-JP"]).2
    "de-DE" "TranslationError" (by decide) "x"

/-! ## Claim C3 — empty-text cues -/

/-- Claim C3, counterexample: a cue with empty `text_lines` IS included in the
batch payload sent to the Translation Client — the single batch for a
one-empty-cue file has payload `[(0, "")]`, not an empty payload. -/
theorem c3_counterexample :
    batches [Cue.mk 0 "00:00:00.000 --> 00:00:02.000" []] =
      [[Cue.mk 0 "00:00:00.000 --> 00:00:02.000" []]] ∧
    batchPayload [Cue.mk 0 "00:00:00.000 --> 00:00:02.000" []] =
      [(Int.ofNat 0, "")] := by
  constructor
  · decide
  · decide

/-- Claim C3 (amended): every cue, including one whose `text_lines` is empty, is
included in the payload of the batch containing it, with text the newline-join
of its lines (the empty string for an empty cue); and when the merged
translation mapping has no entry for the cue's index, the cue's serialized
output text remains empty. -/
theorem c3_empty_cue_payload (cues : List Cue) (c : Cue) (tr : List (Int × String))
    (hc : c ∈ cues) (he : c.text_lines = []) :
    (∃ b, b ∈ batches cues ∧ (Int.ofNat c.idx, "") ∈ batchPayload b) ∧
    (dictGet tr (Int.ofNat c.idx) = none → cueText tr c = "") := by
  constructor
  · have hc' : c ∈ (batches cues).flatten := by
      rw [batches_flatten]
      exact hc
    obtain ⟨b, hb, hcb⟩ := List.mem_flatten.mp hc'
    refine ⟨b, hb, ?_⟩
    unfold batchPayload
    refine List.mem_map.mpr ⟨c, hcb, ?_⟩
    rw [he]
    rfl
  · intro hd
    unfold cueText
    rw [hd, Option.getD_none, he]
    rfl

/-- Witness for C3 on a two-cue file whose first cue is empty. -/
theorem c3_empty_cue_payload_witness :
    (∃ b, b ∈ batches [Cue.mk 0 "00:00:00.000 --> 00:00:02.000" [],
        Cue.mk 1 "00:00:03.000 --> 00:00:04.000" ["Hi"]] ∧
      (Int.ofNat 0, "") ∈ batchPayload b) ∧
    (dictGet [((1 : Int), "Hallo")] (Int.ofNat 0) = none →
      cueText [((1 : Int), "Hallo")] (Cue.mk 0 "00:00:00.000 --> 00:00:02.000" []) = "") :=
  c3_empty_cue_payload
    [Cue.mk 0 "00:00:00.000 --> 00:00:02.000" [],
     Cue.mk 1 "00:00:03.000 --> 00:00:04.000" ["Hi"]]
    (Cue.mk 0 "00:00:00.000 --> 00:00:02.000" []) [((1 : Int), "Hallo")]
    (by decide) (by decide)

/-! ## Claim C4 — parser failure condition -/

/-- Claim C4, counterexample: the input `"WEBVTT"` cannot be parsed into any
cues (the cue list is empty), yet the parser returns successfully instead of
failing — refuting the claim that the parser fails exactly when the input does
not begin with the signature OR cannot be parsed into any cues. -/
theorem c4_counterexample : parse_vtt "WEBVTT" = Except.ok ("WEBVTT", []) := by
  decide

/-- Claim C4 (amended): the parser fails (with `ValueError("Not a VTT file")`,
the `FormatError` of the spec) exactly when the input is empty or its first
line does not start with `WEBVTT`; every other input returns a
`(header, cues)` pair without raising, even when zero cues are parsed. -/
theorem c4_parse_error_iff (w : String) :
    (∃ e, parse_vtt w = Except.error e) ↔
      (splitlines w = [] ∨
        ∃ l0 rest, splitlines w = l0 :: rest ∧ pyStartsWith l0 "WEBVTT" = false) := by
  cases hw : splitlines w with
  | nil =>
    constructor
    · intro _
      exact Or.inl rfl
    · intro _
      exact ⟨"Not a VTT file", by unfold parse_vtt; rw [hw]⟩
  | cons l0 rest =>
    rw [parse_vtt_eq_of_splitlines hw]
    by_cases hst : pyStartsWith l0 "WEBVTT"
    · rw [if_pos hst]
      constructor
      · rintro ⟨e, he⟩
        cases he
      · rintro (hnil | ⟨l0', rest', heq, hst'⟩)
        · cases hnil
        · have hl : l0 = l0' := List.head_eq_of_cons_eq heq
          rw [← hl] at hst'
          rw [hst] at hst'
          cases hst'
    · rw [if_neg hst]
      constructor
      · intro _
        refine Or.inr ⟨l0, rest, rfl, ?_⟩
        simpa using hst
      · intro _
        exact ⟨"Not a VTT file", rfl⟩

/-- Witness for C4: an input whose first line is not a `WEBVTT` signature
makes the parser raise. -/
theorem c4_parse_error_iff_witness :
    ∃ e, parse_vtt "subtitle file" = Except.error e :=
  (c4_parse_error_iff "subtitle file").mpr
    (Or.inr ⟨"subtitle file", [], by decide, by decide⟩)

/-! ## Claim C5 — fallback to original text -/

/-- Claim C5 (confirmed): when a cue's index is absent from the merged
translation mapping, the serialized text for that cue is the newline-join of
its original `text_lines` — and in particular non-empty whenever the cue has at
least one non-blank text line — never the empty string. -/
theorem c5_fallback (tr : List (Int × String)) (c : Cue)
    (h : dictGet tr (Int.ofNat c.idx) = none) :
    cueText tr c = joinNl c.text_lines ∧
    cueBlock tr c =
      Nat.repr (c.idx + 1) ++ "\n" ++ c.timecode ++ "\n" ++
        joinNl c.text_lines ++ "\n\n" ∧
    ((∀ l ∈ c.text_lines, pyStrip l ≠ "") → c.text_lines ≠ [] →
      cueText tr c ≠ "") := by
  have h1 : cueText tr c = joinNl c.text_lines := by
    unfold cueText
    rw [h, Option.getD_none]
  refine ⟨h1, by unfold cueBlock; rw [h1], ?_⟩
  intro hs hne
  rw [h1]
  cases htl : c.text_lines with
  | nil => exact absurd htl hne
  | cons t ts =>
    cases ts with
    | nil =>
      rw [show joinNl [t] = t from rfl]
      intro hte
      refine hs t (by rw [htl]; exact List.mem_cons_self _ _) ?_
      rw [hte, pyStrip_empty]
    | cons t2 ts2 =>
      intro hej
      have hd : (joinNl (t :: t2 :: ts2)).data =
          t.data ++ '\n' :: (joinNl (t2 :: ts2)).data := by
        rw [show joinNl (t :: t2 :: ts2) = t ++ "\n" ++ joinNl (t2 :: ts2) from rfl,
          data_append_newline_append]
      have hz := congrArg String.data hej
      rw [hd, show ("" : String).data = [] from rfl] at hz
      simp at hz

/-- Witness for C5 at a concrete cue and mapping that misses its index. -/
theorem c5_fallback_witness :
    cueText [((5 : Int), "X")] (Cue.mk 0 "00:00:00.000 --> 00:00:02.000" ["a", "b"]) =
      joinNl ["a", "b"] ∧
    cueText [((5 : Int), "X")] (Cue.mk 0 "00:00:00.000 --> 00:00:02.000" ["a", "b"]) ≠ "" :=
  ⟨(c5_fallback [((5 : Int), "X")]
      (Cue.mk 0 "00:00:00.000 --> 00:00:02.000" ["a", "b"]) (by decide)).1,
   (c5_fallback [((5 : Int), "X")]
      (Cue.mk 0 "00:00:00.000 --> 00:00:02.000" ["a", "b"]) (by decide)).2.2
     (by decide) (by decide)⟩

/-! ## Claim C6 — header reuse -/

/-- Claim C6, counterexample: the parser does NOT capture the input's header
line. For an input whose signature line is `"WEBVTT - Title"`, the parser
returns the constant header `"WEBVTT"`, which differs from the file's actual
header line — so the header is not "reused unmodified". -/
theorem c6_counterexample :
    parse_vtt "WEBVTT - Title\n\n1\n00:00:01.000 --> 00:00:02.000\nHey\n\n" =
      Except.ok ("WEBVTT", [Cue.mk 0 "00:00:01.000 --> 00:00:02.000" ["Hey"]]) ∧
    (splitlines "WEBVTT - Title\n\n1\n00:00:01.000 --> 00:00:02.000\nHey\n\n").head? =
      some "WEBVTT - Title" ∧
    ("WEBVTT" : String) ≠ "WEBVTT - Title" := by
  refine ⟨?_, ?_, ?_⟩
  · decide
  · decide
  · decide

/-- Claim C6 (amended): the parser always returns the constant header
`"WEBVTT"`, discarding any metadata present on the signature line, and every
output file produced by the per-language loop starts with that constant header
followed by a blank line. -/
theorem c6_header_constant (w header : String) (cs : List Cue)
    (h : parse_vtt w = Except.ok (header, cs)) :
    header = "WEBVTT" ∧
    ∀ (oracle : List (Int × String) → String → RemoteResp) (langs : List String)
      (lang out : String), (lang, out) ∈ run_main oracle header cs langs →
      ∃ rest, out = "WEBVTT" ++ ("\n\n" ++ rest) := by
  have hh : header = "WEBVTT" := (parse_vtt_ok h).1
  subst hh
  refine ⟨rfl, ?_⟩
  intro oracle langs lang out hmem
  rw [run_main_eq] at hmem
  obtain ⟨l, -, heq⟩ := List.mem_map.mp hmem
  have hout : write_vtt "WEBVTT" cs ((runLang oracle cs l).toOption.getD []) = out :=
    congrArg Prod.snd heq
  refine ⟨writeBlocks ((runLang oracle cs l).toOption.getD []) cs, ?_⟩
  rw [← hout]
  unfold write_vtt
  rw [String.append_assoc]

/-- Witness for C6: a one-cue parse followed by a successful one-language run;
the produced file starts with `"WEBVTT\n\n"`. -/
theorem c6_header_constant_witness :
    ∃ rest,
      write_vtt "WEBVTT" [Cue.mk 0 "00:00:05.000 --> 00:00:06.000" ["Yo"]] [] =
        "WEBVTT" ++ ("\n\n" ++ rest) :=
  (c6_header_constant "WEBVTT\n\n00:00:05.000 --> 00:00:06.000\nYo\n" "WEBVTT"
      [Cue.mk 0 "00:00:05.000 --> 00:00:06.000" ["Yo"]] (by decide)).2
    (fun _ _ => RemoteResp.items []) ["de-DE"] "de-DE"
    (write_vtt "WEBVTT" [Cue.mk 0 "00:00:05.000 --> 00:00:06.000" ["Yo"]] [])
    (by decide)

/-! ## Claim C7 — index assignment -/

/-- Claim C7 (confirmed): the indices of the parsed cue sequence are exactly
`0, 1, ..., n-1` in encounter order, and a numeric label line preceding a
timecode line has no effect on the parse (the label is skipped and the
synthetic index used instead). -/
theorem c7_indices (w header : String) (cs : List Cue)
    (h : parse_vtt w = Except.ok (header, cs)) :
    cs.map Cue.idx = List.range cs.length ∧
    ∀ (d tc : String) (rest : List String) (n : Nat),
      pyIsDigit (pyStrip d) = true → matchesTimecode tc = true →
      parseCues (d :: tc :: rest) n = parseCues (tc :: rest) n := by
  constructor
  · rw [List.range_eq_range']
    exact (parse_vtt_cues_wf h).2
  · intro d tc rest n hd htc
    rw [parseCues_digit_timecode rest n hd htc, parseCues_timecode rest n htc]

/-- Witness for C7: a file whose numeric labels are `7` and `3` parses to
indices `0, 1`, and skipping the label `99` leaves the parse unchanged. -/
theorem c7_indices_witness :
    (List.map Cue.idx [Cue.mk 0 "00:00:00.000 --> 00:00:01.000" ["a"],
        Cue.mk 1 "00:00:02.000 --> 00:00:03.000" ["b"]] =
      List.range 2) ∧
    parseCues ["99", "00:00:00.000 --> 00:00:01.000", "a"] 0 =
      parseCues ["00:00:00.000 --> 00:00:01.000", "a"] 0 :=
  ⟨by
    have h := (c7_indices
      "WEBVTT\n\n7\n00:00:00.000 --> 00:00:01.000\na\n\n3\n00:00:02.000 --> 00:00:03.000\nb\n"
      "WEBVTT"
      [Cue.mk 0 "00:00:00.000 --> 00:00:01.000" ["a"],
       Cue.mk 1 "00:00:02.000 --> 00:00:03.000" ["b"]] (by decide)).1
    exact h,
   (c7_indices "WEBVTT\n\n00:00:09.000 --> 00:00:10.000\nz\n" "WEBVTT"
      [Cue.mk 0 "00:00:09.000 --> 00:00:10.000" ["z"]] (by decide)).2
     "99" "00:00:00.000 --> 00:00:01.000" ["a"] 0 (by decide) (by decide)⟩

/-! ## Claim C8 — batching -/

/-- Claim C8 (confirmed): for every cue sequence, the batches are the
consecutive 50-cue slices in order: their concatenation is the original
sequence, there are `⌈n/50⌉` of them, each has at most 50 cues, every batch
except possibly the last has exactly 50, and the per-language loop makes
exactly one remote call per batch (shown for an arbitrary always-decoding
oracle: the merged result is the in-order concatenation of one response per
batch). -/
theorem c8_batching (cues : List Cue)
    (f : List (Int × String) → String → List (Int × String)) (lang : String) :
    (batches cues).flatten = cues ∧
    (batches cues).length = (cues.length + 49) / 50 ∧
    (∀ b ∈ batches cues, b.length ≤ 50) ∧
    (∀ b ∈ (batches cues).dropLast, b.length = 50) ∧
    runLang (fun p l => RemoteResp.items (f p l)) cues lang =
      Except.ok ((batches cues).flatMap (fun b => f (batchPayload b) lang)) := by
  refine ⟨batches_flatten cues, ?_, batches_le_50 cues, batches_dropLast cues,
    runLang_items f cues lang⟩
  rw [batches_map_slice, List.length_map, List.length_range]

/-- Witness for C8 at the spec's 120-cue example: 3 batches of sizes
50, 50, 20; with two languages that is 6 remote calls. -/
theorem c8_batching_witness :
    (batches (mkCues 120)).flatten = mkCues 120 ∧
    (batches (mkCues 120)).map List.length = [50, 50, 20] ∧
    2 * (batches (mkCues 120)).length = 6 ∧
    ((mkCues 120).take 50).length = 50 ∧
    runLang (fun _ _ => RemoteResp.items []) (mkCues 120) "de-DE" = Except.ok [] :=
  ⟨(c8_batching (mkCues 120) (fun _ _ => []) "de-DE").1,
   by decide,
   by decide,
   (c8_batching (mkCues 120) (fun _ _ => []) "de-DE").2.2.2.1 _ (by decide),
   by
    have h := (c8_batching (mkCues 120) (fun _ _ => []) "de-DE").2.2.2.2
    simpa using h⟩

/-! ## Claim C9 — serializer output shape -/

/-- Claim C9, counterexample to "exactly one blank line between consecutive
cues": serializing a cue with empty `text_lines` followed by a non-empty cue
puts TWO adjacent blank lines between the cue blocks (the empty text plus the
terminating blank line). -/
theorem c9_counterexample :
    noAdjacentBlanks (splitlines (write_vtt "WEBVTT"
      [Cue.mk 0 "00:00:00.000 --> 00:00:01.000" [],
       Cue.mk 1 "00:00:01.000 --> 00:00:02.000" ["x"]] [])) = false := by
  decide

/-- Claim C9 (amended): the serializer emits the header, one blank line, then
for each cue its regenerated 1-based number, its original timecode line, the
lines of its (possibly translated) text, and one terminating blank line; the
file always ends with a newline. Consecutive cues are separated by exactly one
blank line only when each cue's rendered text is non-empty and contains no
blank line — a cue with empty text contributes an extra blank line. -/
theorem c9_serializer_structure (header : String) (cues : List Cue)
    (tr : List (Int × String)) (hh : lineBreakFree header = true)
    (htc : ∀ c ∈ cues, lineBreakFree c.timecode = true)
    (htx : ∀ c ∈ cues, ∀ ch ∈ (cueText tr c).data, isLineBreak ch = true → ch = '\n') :
    splitlines (write_vtt header cues tr) =
      header :: "" :: cues.flatMap (blockLinesTr tr) ∧
    (write_vtt header cues tr).data.getLast? = some '\n' := by
  constructor
  · unfold write_vtt
    rw [nlnl_eq]
    simp only [String.append_assoc]
    rw [splitlines_flat_append' hh, splitlines_newline_cons,
      splitlines_writeBlocks tr cues htc htx]
  · exact write_vtt_getLast header cues tr

/-- Witness for C9 on a one-cue file with a two-line translated text. -/
theorem c9_serializer_structure_witness :
    splitlines (write_vtt "WEBVTT"
        [Cue.mk 0 "00:00:00.000 --> 00:00:02.000" ["a", "b"]]
        [((0 : Int), "x\ny")]) =
      "WEBVTT" :: "" ::
        ([Cue.mk 0 "00:00:00.000 --> 00:00:02.000" ["a", "b"]].flatMap
          (blockLinesTr [((0 : Int), "x\ny")])) ∧
    (write_vtt "WEBVTT" [Cue.mk 0 "00:00:00.000 --> 00:00:02.000" ["a", "b"]]
      [((0 : Int), "x\ny")]).data.getLast? = some '\n' :=
  c9_serializer_structure "WEBVTT"
    [Cue.mk 0 "00:00:00.000 --> 00:00:02.000" ["a", "b"]]
    [((0 : Int), "x\ny")] (by decide) (by decide) (by decide)

/-! ## Claim C10 — bearer verification -/

/-- Claim C10 (confirmed): with an empty configured `API_BEARER`, verification
accepts every request; with a non-empty one it raises 401 when the header is
missing or does not start with `"Bearer "`, raises 403 when the presented
token (the part after the first space, stripped) differs from `API_BEARER`,
and accepts otherwise. -/
theorem c10_verify_bearer (apiBearer : String) (auth : Option String) :
    (apiBearer = "" → verify_bearer apiBearer auth = AuthResult.ok) ∧
    (apiBearer ≠ "" → auth = none → verify_bearer apiBearer auth = AuthResult.err 401) ∧
    (apiBearer ≠ "" → ∀ s, auth = some s → pyStartsWith s "Bearer " = false →
      verify_bearer apiBearer auth = AuthResult.err 401) ∧
    (apiBearer ≠ "" → ∀ s, auth = some s → pyStartsWith s "Bearer " = true →
      pyStrip (afterFirstSpace s) ≠ apiBearer →
      verify_bearer apiBearer auth = AuthResult.err 403) ∧
    (apiBearer ≠ "" → ∀ s, auth = some s → pyStartsWith s "Bearer " = true →
      pyStrip (afterFirstSpace s) = apiBearer →
      verify_bearer apiBearer auth = AuthResult.ok) := by
  refine ⟨?_, ?_, ?_, ?_, ?_⟩
  · intro h
    unfold verify_bearer
    rw [if_pos h]
  · intro h hn
    subst hn
    unfold verify_bearer
    rw [if_neg h]
  · intro h s hs hst
    subst hs
    rw [verify_bearer_some s h, if_pos (by simp [hst])]
  · intro h s hs hst hne
    subst hs
    have hs0 : s ≠ "" := pyStartsWith_bearer_ne_empty hst
    rw [verify_bearer_some s h, if_neg (by simp [hst, hs0]), if_pos hne]
  · intro h s hs hst heq
    subst hs
    have hs0 : s ≠ "" := pyStartsWith_bearer_ne_empty hst
    rw [verify_bearer_some s h, if_neg (by simp [hst, hs0]), if_neg (by simp [heq])]

/-- Witness for C10 at concrete tokens covering every branch. -/
theorem c10_verify_bearer_witness :
    verify_bearer "" (some "anything") = AuthResult.ok ∧
    verify_bearer "secret" none = AuthResult.err 401 ∧
    verify_bearer "secret" (some "Token abc") = AuthResult.err 401 ∧
    verify_bearer "secret" (some "Bearer wrong") = AuthResult.err 403 ∧
    verify_bearer "secret" (some "Bearer  secret ") = AuthResult.ok :=
  ⟨(c10_verify_bearer "" (some "anything")).1 rfl,
   (c10_verify_bearer "secret" none).2.1 (by decide) rfl,
   (c10_verify_bearer "secret" (some "Token abc")).2.2.1 (by decide) "Token abc" rfl
     (by decide),
   (c10_verify_bearer "secret" (some "Bearer wrong")).2.2.2.1 (by decide) "Bearer wrong"
     rfl (by decide) (by decide),
   (c10_verify_bearer "secret" (some "Bearer  secret ")).2.2.2.2 (by decide)
     "Bearer  secret " rfl (by decide) (by decide)⟩

end VttTranslator
